import Mathlib

/-!
Shallow embedding of the `DataLake` class template of `src/main.cpp`
(a log-structured, file-backed key-value store) together with proofs
about its operations.

Modelling conventions:
- Byte streams are `List Nat`; stream offsets (`std::streamoff`) are `Int`
  where a sentinel `-1` can occur and `Nat` for positions inside a file.
- The filesystem is a function from paths (`String`) to optional file
  contents.  Opening a default-constructed (empty) path fails, as it does
  for `std::ifstream`/`std::ofstream`; opening a missing file for reading
  fails; opening any non-empty path for appending succeeds and creates the
  file when absent.
- The class template parameters `Key`, `Value`, `InsertPolicy`
  (`ostream& (*)(ostream&, const Value&)`) and `ExtractPolicy`
  (`istream& (*)(istream&, Value&)`) become a `Codec` record: `encode`
  writes one record, `decode` consumes one record from the remaining bytes
  and reports how many bytes it consumed, or fails.  `dfltVal` is the
  state of a default-constructed `Value` (what a failed extraction leaves
  behind).
- `std::map<Key, std::vector<std::streamoff>> m_index` is modelled as the
  total function `K -> List Int`, the empty list standing for an absent
  entry (`find(key) == end()`).  In the source a key is only ever inserted
  together with an offset and only erased wholesale, so a present entry
  with an empty vector never occurs and the two representations agree on
  every observation the class makes.
- `std::unordered_map<Key, Value> map` is modelled as an association list;
  `unordered_map::insert` does not overwrite an existing key, so insertion
  keeps the first value stored for a key.
-/

/-- A filesystem: path to optional byte contents. -/
def Fs : Type := String → Option (List Nat)

/-- Opening a file for reading (`std::ifstream`): fails on the
default-constructed empty path and on a missing file. -/
def openRead (fs : Fs) (p : String) : Option (List Nat) :=
  if p = "" then none else fs p

/-- Appending bytes to a file (`std::ofstream` with `std::ios::app`):
creates the file when absent.  Callers must check the path is non-empty
(the open-failure case) before using this. -/
def writeAppend (fs : Fs) (p : String) (bs : List Nat) : Fs :=
  fun q => if q = p then some ((fs p).getD [] ++ bs) else fs q

/-- The codec: the `Value` type together with the two policy template
parameters of `DataLake`.  `decode` consumes one record from the still
unread suffix of the stream and returns the value and the number of bytes
consumed, or fails (extraction puts the stream in a failed state).
`dfltVal` is a default-constructed `Value`. -/
structure Codec (K V : Type) where
  getKey : V → K
  encode : V → List Nat
  decode : List Nat → Option (V × Nat)
  dfltVal : V

/-- The state of a `DataLake<Key, Value, InsertPolicy, ExtractPolicy>`
object.  Field names follow the source. -/
structure DataLake (K V : Type) where
  /-- the path the constructor was given -/
  path : String
  /-- the member `std::unordered_map<Key, Value> map`, filled by the
  constructor and then never read again -/
  map : List (K × V)
  /-- the member `std::map<Key, std::vector<std::streamoff>> m_index`;
  an absent key is the empty list -/
  m_index : K → List Int
  /-- the member `m_filename`, the last used file; default-constructed
  to the empty path -/
  m_filename : String
  /-- the member `m_directory` -/
  m_directory : String

/-- One step of `while (extractPolicy(in, value))` iterated with a fuel
bound: decode records from the remaining bytes, pairing every decoded
value with the stream position reached after consuming it (`in.tellg()`).
`pos` is the absolute position of the start of `bytes` in the file.  A
decode that consumes at least one byte per record exhausts a file within
`length + 1` iterations, so the fuel used below is never the reason the
loop stops; a decode succeeding on zero bytes would make the source loop
forever and is cut off here. -/
def scanRecs (co : Codec K V) : Nat → List Nat → Nat → List (V × Nat)
  | 0, _, _ => []
  | fuel + 1, bytes, pos =>
    match co.decode bytes with
    | none => []
    | some (v, n) => (v, pos + n) :: scanRecs co fuel (List.drop n bytes) (pos + n)

/-- The full extraction loop over one file, starting at offset 0. -/
def scanFile (co : Codec K V) (bytes : List Nat) : List (V × Nat) :=
  scanRecs co (bytes.length + 1) bytes 0

/-- Association-list find, first match (`unordered_map::find`). -/
def alookup [DecidableEq K] : List (K × V) → K → Option V
  | [], _ => none
  | (k1, v) :: rest, k => if k = k1 then some v else alookup rest k

/-- The effect of `map.insert({key, value})`: `std::unordered_map::insert`
does nothing when the key is already present, so the first value stored
for a key is kept. -/
def mapInsert [DecidableEq K] (k : K) (v : V) (m : List (K × V)) : List (K × V) :=
  if (alookup m k).isSome then m else m ++ [(k, v)]

/-- The constructor `DataLake(const std::filesystem::path&)`
(src/main.cpp lines 44-52): opens the given path and, while extraction
succeeds, inserts each decoded value into `map` under its own key.
`m_index` stays empty and `m_filename` stays the default empty path. -/
def DataLake.init [DecidableEq K] (co : Codec K V) (fs : Fs) (p : String) :
    DataLake K V where
  path := p
  map :=
    match openRead fs p with
    | none => []
    | some bytes =>
      (scanFile co bytes).foldl (fun m vn => mapInsert (co.getKey vn.1) vn.1 m) []
  m_index := fun _ => []
  m_filename := ""
  m_directory := ""

/-- The method `insert(const Key&, const Value&)` (src/main.cpp lines
55-61): opens `m_filename` in append mode; when the open succeeds it
writes the encoded value.  The following statement `m_index(key, value)`
applies the `std::map` member as if it were callable, which is ill-formed
against the declared type (the defect recorded in the design notes of the
spec); no index update can be derived from it, in particular no offset of
the written record is ever taken, so the lake state is returned
unchanged.  Returns the new filesystem and the new lake state. -/
def DataLake.insert (co : Codec K V) (fs : Fs) (key : K) (value : V)
    (s : DataLake K V) : Fs × DataLake K V :=
  if s.m_filename = "" then (fs, s)
  else (writeAppend fs s.m_filename (co.encode value), s)

/-- One iteration body of the lookup loop: open `m_filename`, seek to the
offset, extract.  When the open fails nothing is pushed; when extraction
fails the default-constructed `Value` that the loop declared is pushed. -/
def readAt (co : Codec K V) (fs : Fs) (fname : String) (off : Int) : Option V :=
  match openRead fs fname with
  | none => none
  | some bytes =>
    some (match co.decode (List.drop off.toNat bytes) with
          | some vp => vp.1
          | none => co.dfltVal)

/-- The method `operator[](const Key&)` (src/main.cpp lines 63-78): for
every offset stored under the key, open `m_filename`, seek and extract,
collecting the results; an absent key yields the empty vector. -/
def DataLake.lookup (co : Codec K V) (fs : Fs) (s : DataLake K V) (k : K) :
    List V :=
  (s.m_index k).filterMap (readAt co fs s.m_filename)

/-- The method `remove(const Key&)` (src/main.cpp lines 80-85): erase the
entry found for the key; an absent key is left untouched (erasing an
absent entry and leaving an absent entry absent coincide in this
representation). -/
def DataLake.remove [DecidableEq K] (k : K) (s : DataLake K V) : DataLake K V :=
  { s with m_index := fun k1 => if k1 = k then [] else s.m_index k1 }

/-- The method `clear_index()` (src/main.cpp lines 87-89). -/
def DataLake.clear_index (s : DataLake K V) : DataLake K V :=
  { s with m_index := fun _ => [] }

/-- Appending one offset to the vector stored under a key, creating the
entry when absent: the `record(key, location)` operation of the Key
Index as the spec names it.  The source statement `m_index(value.getKey(),
in.tellg())` at line 100 applies the `std::map` member as if it were
callable, which is ill-formed against the declared type; its arguments
are exactly a key and a stream offset, and this operation is the reading
the design notes of the spec give them. -/
def recordOff [DecidableEq K] (k : K) (off : Int) (idx : K → List Int) :
    K → List Int :=
  fun k1 => if k1 = k then idx k1 ++ [off] else idx k1

/-- The per-file body of `index_directory` (src/main.cpp lines 94-103):
set `m_filename` to the entry path, open it, and while extraction
succeeds record `(value.getKey(), in.tellg())` into the index.  Note
`in.tellg()` is taken after the extraction, so the stored offset is the
position at which the consumed record ends, not the one at which it
begins. -/
def DataLake.indexFile [DecidableEq K] (co : Codec K V) (fs : Fs)
    (s : DataLake K V) (p : String) : DataLake K V :=
  match openRead fs p with
  | none => { s with m_filename := p }
  | some bytes =>
    { s with
      m_filename := p
      m_index := (scanFile co bytes).foldl
        (fun idx vn => recordOff (co.getKey vn.1) (Int.ofNat vn.2) idx)
        s.m_index }

/-- The method `index_directory(const std::filesystem::path&)`
(src/main.cpp lines 91-105): store the directory, then iterate over its
regular files.  `listing` is the sequence of regular files yielded by
`std::filesystem::directory_iterator` in its enumeration order.  The
index is not cleared first. -/
def DataLake.index_directory [DecidableEq K] (co : Codec K V) (fs : Fs)
    (d : String) (listing : List String) (s : DataLake K V) : DataLake K V :=
  listing.foldl (DataLake.indexFile co fs) { s with m_directory := d }

/-- The method `getOffset(const Key&)` (src/main.cpp lines 109-115):
the last stored offset for the key (`it->second.back()`), or `-1` when
the key is absent.  The vector of a present entry is never empty, so
taking the last element of the list covers `back()` exactly. -/
def DataLake.getOffset (s : DataLake K V) (k : K) : Int :=
  (s.m_index k).getLast?.getD (-1)

/- Analysis-side helper definitions (comparison values for the theorems;
these are not translations of source code). -/

/-- The concatenated encodings of a list of values: the byte contents of
a log file holding exactly these records in order. -/
def encodeAll (co : Codec K V) (recs : List V) : List Nat :=
  (recs.map co.encode).flatten

/-- The expected result of scanning the encodings of `recs` starting at
position `pos`: each value paired with the position after its record. -/
def expectedRecs (co : Codec K V) (pos : Nat) : List V → List (V × Nat)
  | [] => []
  | v :: vs =>
    (v, pos + (co.encode v).length) ::
      expectedRecs co (pos + (co.encode v).length) vs

/-- The offsets that a list of scanned (value, offset) pairs contributes
to the index entry of key `k`. -/
def offsFor (co : Codec K V) [DecidableEq K] (k : K) (l : List (V × Nat)) :
    List Int :=
  l.filterMap (fun vn => if co.getKey vn.1 = k then some (Int.ofNat vn.2) else none)

/-- All records scanned by one `index_directory` pass, per file in
listing order. -/
def dirRecs (co : Codec K V) (fs : Fs) (listing : List String) :
    List (V × Nat) :=
  (listing.map (fun p =>
    match openRead fs p with
    | none => []
    | some bytes => scanFile co bytes)).flatten

/-- Keep-first-per-key association list built from a value list: the
contents `map` is expected to hold after the constructor decodes exactly
these values. -/
def firstPerKey (co : Codec K V) [DecidableEq K] (recs : List V) :
    List (K × V) :=
  recs.foldl (fun m v => mapInsert (co.getKey v) v m) []

/- Concrete instantiation used by the witnesses and counterexamples:
keys and payloads are naturals, a record is the tag byte 7 followed by
the key byte and the payload byte. -/

/-- A concrete codec: `encode (k, p) = [7, k, p]`; `decode` consumes
three bytes when the first is the tag 7 and fails otherwise. -/
def natCodec : Codec Nat (Nat × Nat) where
  getKey := Prod.fst
  encode := fun v => [7, v.1, v.2]
  decode := fun bytes =>
    match bytes with
    | t :: k :: p :: _ => if t = 7 then some ((k, p), 3) else none
    | _ => none
  dfltVal := (0, 0)

/-- The empty filesystem. -/
def fsEmpty : Fs := fun _ => none

/-- One file `f1` holding one record, key 1 payload 10. -/
def fsOne : Fs := fun p => if p = "f1" then some [7, 1, 10] else none

/-- One file `f1` holding two records: key 1 payload 10, key 2 payload 20. -/
def fsTwo : Fs := fun p => if p = "f1" then some [7, 1, 10, 7, 2, 20] else none

/-- Two files: `f1` holds the record for key 1, `f2` the record for key 2. -/
def fsPair : Fs :=
  fun p => if p = "f1" then some [7, 1, 10] else
    if p = "f2" then some [7, 2, 20] else none

/-- Like `fsPair` with the contents of `f1` replaced. -/
def fsPairAlt : Fs := fun p => if p = "f1" then some [] else fsPair p

/-- One file `g` holding a valid record, three corrupt bytes, and then
another valid record: interior corruption. -/
def fsCorrupt : Fs :=
  fun p => if p = "g" then some [7, 1, 10, 9, 9, 9, 7, 2, 20] else none

/-- A lake over `fsOne` after one `index_directory` pass. -/
def lakeOne : DataLake Nat (Nat × Nat) :=
  DataLake.index_directory natCodec fsOne "d" ["f1"] (DataLake.init natCodec fsOne "db")

example : scanFile natCodec [7, 1, 10] = [((1, 10), 3)] := by decide
example : lakeOne.m_index 1 = [3] := by decide
example : DataLake.lookup natCodec fsOne lakeOne 1 = [(0, 0)] := by decide

/- General lemmas about the embedded operations. -/

/-- The extraction loop over the encodings of `recs` followed by bytes on
which decode fails visits exactly the records of `recs`, pairing each
with the position after it. -/
theorem scanRecs_spec (co : Codec K V)
    (hlaw : ∀ (v : V) (rest : List Nat),
      co.decode (co.encode v ++ rest) = some (v, (co.encode v).length))
    (junk : List Nat) (hjunk : co.decode junk = none) :
    ∀ (recs : List V) (fuel pos : Nat), recs.length < fuel →
      scanRecs co fuel (encodeAll co recs ++ junk) pos = expectedRecs co pos recs := by
  intro recs
  induction recs with
  | nil =>
    intro fuel pos hf
    cases fuel with
    | zero => exact absurd hf (Nat.not_lt_zero _)
    | succ f => simp [encodeAll, scanRecs, hjunk, expectedRecs]
  | cons v vs ih =>
    intro fuel pos hf
    cases fuel with
    | zero => exact absurd hf (Nat.not_lt_zero _)
    | succ f =>
      have hb : encodeAll co (v :: vs) ++ junk
          = co.encode v ++ (encodeAll co vs ++ junk) := by
        simp [encodeAll, List.append_assoc]
      rw [hb]
      simp only [scanRecs, hlaw v (encodeAll co vs ++ junk)]
      rw [List.drop_left]
      rw [ih f (pos + (co.encode v).length) (Nat.lt_of_succ_lt_succ hf)]
      rfl

/-- Each record encoding is non-empty, so a file holding `recs` has at
least `recs.length` bytes. -/
theorem length_le_encodeAll (co : Codec K V) (hpos : ∀ v : V, co.encode v ≠ [])
    (recs : List V) : recs.length ≤ (encodeAll co recs).length := by
  induction recs with
  | nil => simp [encodeAll]
  | cons v vs ih =>
    have h1 : 1 ≤ (co.encode v).length := by
      cases hE : co.encode v with
      | nil => exact absurd hE (hpos v)
      | cons a l => simp
    simp only [encodeAll, List.map_cons, List.flatten_cons, List.length_append,
      List.length_cons]
    simp only [encodeAll] at ih
    omega

/-- The full scan of a file holding the encodings of `recs` followed by
undecodable bytes yields exactly the records of `recs` with their end
positions. -/
theorem scanFile_encodeAll (co : Codec K V)
    (hlaw : ∀ (v : V) (rest : List Nat),
      co.decode (co.encode v ++ rest) = some (v, (co.encode v).length))
    (hpos : ∀ v : V, co.encode v ≠ [])
    (recs : List V) (junk : List Nat) (hjunk : co.decode junk = none) :
    scanFile co (encodeAll co recs ++ junk) = expectedRecs co 0 recs := by
  apply scanRecs_spec co hlaw junk hjunk
  have h := length_le_encodeAll co hpos recs
  simp only [List.length_append]
  omega

/-- The values of the expected scan are the records themselves. -/
theorem expectedRecs_map_fst (co : Codec K V) :
    ∀ (pos : Nat) (recs : List V),
      (expectedRecs co pos recs).map Prod.fst = recs := by
  intro pos recs
  induction recs generalizing pos with
  | nil => rfl
  | cons v vs ih => simp [expectedRecs, ih]

/-- Folding the record operation over a scanned list appends, for every
key, exactly the offsets the list contributes to that key. -/
theorem foldl_recordOff_apply (co : Codec K V) [DecidableEq K] :
    ∀ (l : List (V × Nat)) (idx : K → List Int) (k : K),
      (l.foldl (fun idx vn => recordOff (co.getKey vn.1) (Int.ofNat vn.2) idx) idx) k
        = idx k ++ offsFor co k l := by
  intro l
  induction l with
  | nil => intro idx k; simp [offsFor]
  | cons vn l ih =>
    intro idx k
    simp only [List.foldl_cons]
    rw [ih]
    by_cases h : co.getKey vn.1 = k
    · subst h
      simp [recordOff, offsFor, List.append_assoc]
    · have h2 : ¬ k = co.getKey vn.1 := fun hk => h hk.symm
      simp [recordOff, offsFor, h, h2]

/-- Indexing one file appends to each key entry the offsets scanned from
that file. -/
theorem indexFile_m_index (co : Codec K V) [DecidableEq K] (fs : Fs)
    (s : DataLake K V) (p : String) (k : K) :
    (DataLake.indexFile co fs s p).m_index k
      = s.m_index k ++ offsFor co k
          (match openRead fs p with
           | none => []
           | some bytes => scanFile co bytes) := by
  unfold DataLake.indexFile
  cases hO : openRead fs p with
  | none => simp [offsFor]
  | some bytes =>
    simp only []
    exact foldl_recordOff_apply co (scanFile co bytes) s.m_index k

/-- Indexing one file always sets `m_filename` to that file, whether or
not the open succeeds. -/
theorem indexFile_m_filename (co : Codec K V) [DecidableEq K] (fs : Fs)
    (s : DataLake K V) (p : String) :
    (DataLake.indexFile co fs s p).m_filename = p := by
  unfold DataLake.indexFile
  cases hO : openRead fs p <;> rfl

/-- Indexing one file leaves the directory member unchanged. -/
theorem indexFile_m_directory (co : Codec K V) [DecidableEq K] (fs : Fs)
    (s : DataLake K V) (p : String) :
    (DataLake.indexFile co fs s p).m_directory = s.m_directory := by
  unfold DataLake.indexFile
  cases hO : openRead fs p <;> rfl

/-- The directory loop appends to each key entry the offsets of all
records scanned over the listing, in listing order. -/
theorem foldl_indexFile_m_index (co : Codec K V) [DecidableEq K] (fs : Fs) :
    ∀ (listing : List String) (s : DataLake K V) (k : K),
      (listing.foldl (DataLake.indexFile co fs) s).m_index k
        = s.m_index k ++ offsFor co k (dirRecs co fs listing) := by
  intro listing
  induction listing with
  | nil => intro s k; simp [dirRecs, offsFor]
  | cons p rest ih =>
    intro s k
    simp only [List.foldl_cons]
    rw [ih, indexFile_m_index]
    simp only [dirRecs, List.map_cons, List.flatten_cons, offsFor,
      List.filterMap_append, List.append_assoc]

/-- The directory loop leaves `m_filename` at the last listed file, or
unchanged for an empty listing. -/
theorem foldl_indexFile_m_filename (co : Codec K V) [DecidableEq K] (fs : Fs) :
    ∀ (listing : List String) (s : DataLake K V),
      (listing.foldl (DataLake.indexFile co fs) s).m_filename
        = listing.getLast?.getD s.m_filename := by
  intro listing
  induction listing with
  | nil => intro s; rfl
  | cons p rest ih =>
    intro s
    simp only [List.foldl_cons]
    rw [ih, indexFile_m_filename]
    cases rest with
    | nil => rfl
    | cons q t =>
      have hs : ((q :: t).getLast?).isSome := by
        rw [List.getLast?_isSome]
        exact List.cons_ne_nil q t
      obtain ⟨x, hx⟩ := Option.isSome_iff_exists.mp hs
      simp [List.getLast?_cons_cons, hx]

/-- The index after `index_directory`: every key entry is its previous
list with the offsets discovered by the scan appended.  Nothing is
cleared first. -/
theorem index_directory_m_index (co : Codec K V) [DecidableEq K] (fs : Fs)
    (d : String) (listing : List String) (s : DataLake K V) (k : K) :
    (DataLake.index_directory co fs d listing s).m_index k
      = s.m_index k ++ offsFor co k (dirRecs co fs listing) := by
  unfold DataLake.index_directory
  rw [foldl_indexFile_m_index]

/-- The last used file after `index_directory` is the last enumerated
file, or the previous one for an empty listing. -/
theorem index_directory_m_filename (co : Codec K V) [DecidableEq K] (fs : Fs)
    (d : String) (listing : List String) (s : DataLake K V) :
    (DataLake.index_directory co fs d listing s).m_filename
      = listing.getLast?.getD s.m_filename := by
  unfold DataLake.index_directory
  rw [foldl_indexFile_m_filename]

/-- Reading a record position only touches the named file, so two
filesystems agreeing on that file read the same. -/
theorem readAt_congr (co : Codec K V) (fs fs2 : Fs) (fname : String)
    (h : fs2 fname = fs fname) (off : Int) :
    readAt co fs2 fname off = readAt co fs fname off := by
  unfold readAt openRead
  rw [h]

/-- The last element of a list appended to itself is its last element. -/
theorem getLast?_append_self (l : List Int) : (l ++ l).getLast? = l.getLast? := by
  cases l with
  | nil => rfl
  | cons a t =>
    rw [List.getLast?_append]
    have hs : ((a :: t).getLast?).isSome := by
      rw [List.getLast?_isSome]
      exact List.cons_ne_nil a t
    obtain ⟨x, hx⟩ := Option.isSome_iff_exists.mp hs
    rw [hx]
    rfl

/-- Decoding one encoded record with anything after it succeeds and
consumes exactly the encoding, for the concrete codec. -/
theorem natCodec_law (v : Nat × Nat) (rest : List Nat) :
    natCodec.decode (natCodec.encode v ++ rest)
      = some (v, (natCodec.encode v).length) := rfl

/-- Concrete codec encodings are never empty. -/
theorem natCodec_encode_ne_nil (v : Nat × Nat) : natCodec.encode v ≠ [] := by
  simp [natCodec]

/- Further concrete states used by the claim theorems. -/

/-- The lake state after inserting (1, 10) and then (1, 20) under key 1
into a freshly constructed lake over the empty filesystem, paired with
the resulting filesystem. -/
def lakeAfterTwoInserts : Fs × DataLake Nat (Nat × Nat) :=
  DataLake.insert natCodec
    (DataLake.insert natCodec fsEmpty 1 (1, 10) (DataLake.init natCodec fsEmpty "db")).1
    1 (1, 20)
    (DataLake.insert natCodec fsEmpty 1 (1, 10) (DataLake.init natCodec fsEmpty "db")).2

/-- A lake over `fsTwo` after one `index_directory` pass over its single
two-record file. -/
def lakeTwo : DataLake Nat (Nat × Nat) :=
  DataLake.index_directory natCodec fsTwo "d" ["f1"] (DataLake.init natCodec fsTwo "db")

/-- A lake over the two-file filesystem `fsPair` after one
`index_directory` pass over both files. -/
def lakePair : DataLake Nat (Nat × Nat) :=
  DataLake.index_directory natCodec fsPair "d" ["f1", "f2"] (DataLake.init natCodec fsPair "db")

/-- A lake over `fsCorrupt` after one `index_directory` pass over the
file with interior corruption. -/
def lakeCorrupt : DataLake Nat (Nat × Nat) :=
  DataLake.index_directory natCodec fsCorrupt "d" ["g"] (DataLake.init natCodec fsCorrupt "db")

/-- C1: the round-trip property fails on the code.  Evaluating the
operations at the failing input: inserting the value (1, 42) under key 1
into a freshly constructed lake and looking key 1 up returns the empty
list, not the singleton of the inserted value.  The insert opened the
member `m_filename`, still the default-constructed empty path, so the
open failed and nothing was written, and the ill-formed index update of
line 59 records no offset in any case. -/
theorem c1_roundtrip_fails :
    DataLake.lookup natCodec
      (DataLake.insert natCodec fsEmpty 1 (1, 42) (DataLake.init natCodec fsEmpty "db")).1
      (DataLake.insert natCodec fsEmpty 1 (1, 42) (DataLake.init natCodec fsEmpty "db")).2
      1 = [] := by decide

/-- C2: the multi-version ordering property fails on the code.  After
inserting (1, 10) and then (1, 20) under key 1 into a freshly
constructed lake, lookup of key 1 returns the empty list instead of
both versions, and the only latest-style operation, `getOffset`, returns
the absent sentinel -1 instead of resolving the second version. -/
theorem c2_multiversion_fails :
    DataLake.lookup natCodec lakeAfterTwoInserts.1 lakeAfterTwoInserts.2 1 = []
    ∧ DataLake.getOffset lakeAfterTwoInserts.2 1 = -1 := by decide

/-- C3: the index self-consistency invariant fails on the code.  Over a
file holding the record of key 1 on bytes 0 to 2 and the record of key 2
on bytes 3 to 5, `index_directory` stores under key 1 the offset 3 taken
by `in.tellg()` after the extraction, the position at which the record
of key 1 ends and the record of key 2 begins; decoding the file at the
stored offset yields a value whose key is 2, not 1, and lookup of key 1
returns the value of key 2. -/
theorem c3_stored_offset_is_end_not_start :
    lakeTwo.m_index 1 = [3]
    ∧ (natCodec.decode (List.drop 3 [7, 1, 10, 7, 2, 20])).map
        (fun vp => natCodec.getKey vp.1) = some 2
    ∧ DataLake.lookup natCodec fsTwo lakeTwo 1 = [(2, 20)] := by decide

/-- C4 counterexample: `index_directory` does not first empty the index.
Running it a second time over the unchanged single-record directory
leaves the entry from the first run in place: the entry of key 1 becomes
[3, 3], although the pairs discovered by the second scan are only the
single pair of key 1 at offset 3, which the claim says the index then
holds exactly. -/
theorem c4_counterexample_stale_entries :
    (DataLake.index_directory natCodec fsOne "d" ["f1"] lakeOne).m_index 1 = [3, 3]
    ∧ lakeOne.m_index 1 = [3]
    ∧ offsFor natCodec 1 (dirRecs natCodec fsOne ["f1"]) = [3] := by decide

/-- C4 amended: `index_directory` never clears the index; after it
returns, every key entry is the entry held before the call with the
offsets discovered by the directory scan appended, so everything that
was in the index before the call survives it. -/
theorem c4_amended_index_appends (co : Codec K V) [DecidableEq K] (fs : Fs)
    (d : String) (listing : List String) (s : DataLake K V) (k : K) :
    (DataLake.index_directory co fs d listing s).m_index k
      = s.m_index k ++ offsFor co k (dirRecs co fs listing) :=
  index_directory_m_index co fs d listing s k

/-- C4 amended witness at a concrete input: indexing the single-record
directory from the already indexed lake appends the scanned offset to
the existing entry of key 1. -/
theorem c4_amended_index_appends_witness :
    (DataLake.index_directory natCodec fsOne "d" ["f1"] lakeOne).m_index 1
      = lakeOne.m_index 1 ++ offsFor natCodec 1 (dirRecs natCodec fsOne ["f1"]) :=
  c4_amended_index_appends natCodec fsOne "d" ["f1"] lakeOne 1

/-- C5 counterexample: rebuild is not idempotent.  Over the
single-record directory, lookup of key 1 after two `index_directory`
runs differs from lookup after one run: the second run duplicates the
entry of key 1, so lookup returns two values instead of one. -/
theorem c5_counterexample_not_idempotent :
    DataLake.lookup natCodec fsOne
        (DataLake.index_directory natCodec fsOne "d" ["f1"] lakeOne) 1
      ≠ DataLake.lookup natCodec fsOne lakeOne 1
    ∧ DataLake.lookup natCodec fsOne
        (DataLake.index_directory natCodec fsOne "d" ["f1"] lakeOne) 1
      = [(0, 0), (0, 0)]
    ∧ DataLake.lookup natCodec fsOne lakeOne 1 = [(0, 0)] := by decide

/-- Running the directory loop again from a state whose `m_filename`
already equals the post-run value leaves `m_filename` at that value. -/
theorem index_directory_m_filename_stable (co : Codec K V) [DecidableEq K]
    (fs : Fs) (d : String) (listing : List String) (s s2 : DataLake K V)
    (h : s2.m_filename = (DataLake.index_directory co fs d listing s).m_filename) :
    (DataLake.index_directory co fs d listing s2).m_filename
      = (DataLake.index_directory co fs d listing s).m_filename := by
  rw [index_directory_m_filename, h, index_directory_m_filename]
  cases hL : listing.getLast? with
  | none => rfl
  | some q => rfl

/-- Lookup is a function of the key entry and the current file only. -/
theorem lookup_eq_of_parts (co : Codec K V) (fs : Fs) (s s2 : DataLake K V)
    (k : K) (hidx : s2.m_index k = s.m_index k)
    (hfn : s2.m_filename = s.m_filename) :
    DataLake.lookup co fs s2 k = DataLake.lookup co fs s k := by
  unfold DataLake.lookup
  rw [hidx, hfn]

/-- C5 amended: a second `index_directory` run over an unchanged
directory is observably different from one run.  Starting from a freshly
constructed lake, after two runs every key answers lookup with the
single-run sequence concatenated with itself, while `getOffset` agrees
between one run and two. -/
theorem c5_amended_double_run (co : Codec K V) [DecidableEq K] (fs : Fs)
    (p d : String) (listing : List String) (k : K) :
    DataLake.lookup co fs
        (DataLake.index_directory co fs d listing
          (DataLake.index_directory co fs d listing (DataLake.init co fs p))) k
      = DataLake.lookup co fs
          (DataLake.index_directory co fs d listing (DataLake.init co fs p)) k
        ++ DataLake.lookup co fs
            (DataLake.index_directory co fs d listing (DataLake.init co fs p)) k
    ∧ DataLake.getOffset
        (DataLake.index_directory co fs d listing
          (DataLake.index_directory co fs d listing (DataLake.init co fs p))) k
      = DataLake.getOffset
          (DataLake.index_directory co fs d listing (DataLake.init co fs p)) k := by
  have hidx1 : (DataLake.index_directory co fs d listing (DataLake.init co fs p)).m_index k
      = offsFor co k (dirRecs co fs listing) := by
    rw [index_directory_m_index]
    simp [DataLake.init]
  have hidx2 : (DataLake.index_directory co fs d listing
        (DataLake.index_directory co fs d listing (DataLake.init co fs p))).m_index k
      = offsFor co k (dirRecs co fs listing) ++ offsFor co k (dirRecs co fs listing) := by
    rw [index_directory_m_index, hidx1]
  have hfn : (DataLake.index_directory co fs d listing
        (DataLake.index_directory co fs d listing (DataLake.init co fs p))).m_filename
      = (DataLake.index_directory co fs d listing (DataLake.init co fs p)).m_filename :=
    index_directory_m_filename_stable co fs d listing _ _ rfl
  constructor
  · unfold DataLake.lookup
    rw [hidx2, hfn, hidx1, List.filterMap_append]
  · unfold DataLake.getOffset
    rw [hidx2, hidx1, getLast?_append_self]

/-- C5 amended witness at a concrete input: over the single-record
directory, two runs answer lookup of key 1 with the one-run list
repeated and leave `getOffset` unchanged. -/
theorem c5_amended_double_run_witness :
    DataLake.lookup natCodec fsOne
        (DataLake.index_directory natCodec fsOne "d" ["f1"]
          (DataLake.index_directory natCodec fsOne "d" ["f1"] (DataLake.init natCodec fsOne "db"))) 1
      = DataLake.lookup natCodec fsOne
          (DataLake.index_directory natCodec fsOne "d" ["f1"] (DataLake.init natCodec fsOne "db")) 1
        ++ DataLake.lookup natCodec fsOne
            (DataLake.index_directory natCodec fsOne "d" ["f1"] (DataLake.init natCodec fsOne "db")) 1
    ∧ DataLake.getOffset
        (DataLake.index_directory natCodec fsOne "d" ["f1"]
          (DataLake.index_directory natCodec fsOne "d" ["f1"] (DataLake.init natCodec fsOne "db"))) 1
      = DataLake.getOffset
          (DataLake.index_directory natCodec fsOne "d" ["f1"] (DataLake.init natCodec fsOne "db")) 1 :=
  c5_amended_double_run natCodec fsOne "db" "d" ["f1"] 1

/-- C6: delete is logical only and undone by rebuild.  For a lake built
by one `index_directory` pass, for any key held by the index: after
`remove`, lookup of that key is empty; after a further
`index_directory` pass over the same unchanged files, lookup of the key
is restored to exactly what it returned before the removal. -/
theorem c6_delete_then_rebuild (co : Codec K V) [DecidableEq K] (fs : Fs)
    (p d : String) (listing : List String) (k : K)
    (h : (DataLake.index_directory co fs d listing (DataLake.init co fs p)).m_index k ≠ []) :
    DataLake.lookup co fs
        (DataLake.remove k
          (DataLake.index_directory co fs d listing (DataLake.init co fs p))) k = []
    ∧ DataLake.lookup co fs
        (DataLake.index_directory co fs d listing
          (DataLake.remove k
            (DataLake.index_directory co fs d listing (DataLake.init co fs p)))) k
      = DataLake.lookup co fs
          (DataLake.index_directory co fs d listing (DataLake.init co fs p)) k := by
  constructor
  · simp [DataLake.lookup, DataLake.remove]
  · apply lookup_eq_of_parts
    · rw [index_directory_m_index, index_directory_m_index]
      simp [DataLake.remove, DataLake.init]
    · exact index_directory_m_filename_stable co fs d listing _ _ rfl

/-- C6 witness at a concrete input: key 1 over the single-record
directory, removed and resurrected by a further pass. -/
theorem c6_delete_then_rebuild_witness :
    DataLake.lookup natCodec fsOne
        (DataLake.remove 1
          (DataLake.index_directory natCodec fsOne "d" ["f1"] (DataLake.init natCodec fsOne "db"))) 1 = []
    ∧ DataLake.lookup natCodec fsOne
        (DataLake.index_directory natCodec fsOne "d" ["f1"]
          (DataLake.remove 1
            (DataLake.index_directory natCodec fsOne "d" ["f1"] (DataLake.init natCodec fsOne "db")))) 1
      = DataLake.lookup natCodec fsOne
          (DataLake.index_directory natCodec fsOne "d" ["f1"] (DataLake.init natCodec fsOne "db")) 1 :=
  c6_delete_then_rebuild natCodec fsOne "db" "d" ["f1"] 1 (by decide)

/-- C7 counterexample: an interior decode failure does not make
`index_directory` fail with anything.  Over the file holding a valid
record of key 1, three undecodable bytes, and then a valid record of
key 2, the pass completes normally, indexes the record before the
corruption, silently stops the scan of the file there, and never indexes
the valid record of key 2 behind the corruption. -/
theorem c7_counterexample_interior_corruption_silent :
    lakeCorrupt.m_index 1 = [3] ∧ lakeCorrupt.m_index 2 = [] := by decide

/-- C7 amended: a decode failure anywhere in a file, truncated tail or
interior corruption alike, is treated as end-of-data for that file: the
complete records before the failure point are indexed and everything
from the failure point on is skipped without any error. -/
theorem c7_amended_decode_failure_ends_file (co : Codec K V) [DecidableEq K]
    (hlaw : ∀ (v : V) (rest : List Nat),
      co.decode (co.encode v ++ rest) = some (v, (co.encode v).length))
    (hpos : ∀ v : V, co.encode v ≠ [])
    (recs : List V) (junk : List Nat) (hjunk : co.decode junk = none)
    (fs : Fs) (p : String) (hp : ¬ p = "")
    (hfs : fs p = some (encodeAll co recs ++ junk))
    (d : String) (s : DataLake K V) (k : K) :
    (DataLake.index_directory co fs d [p] s).m_index k
      = s.m_index k ++ offsFor co k (expectedRecs co 0 recs) := by
  rw [index_directory_m_index]
  have hO : openRead fs p = some (encodeAll co recs ++ junk) := by
    unfold openRead
    rw [if_neg hp, hfs]
  have hscan : dirRecs co fs [p] = expectedRecs co 0 recs := by
    unfold dirRecs
    rw [List.map_cons, List.map_nil, hO]
    simp only [List.flatten_cons, List.flatten_nil, List.append_nil]
    exact scanFile_encodeAll co hlaw hpos recs junk hjunk
  rw [hscan]

/-- C7 amended witness at a concrete input: the file with interior
corruption indexes exactly its first record. -/
theorem c7_amended_decode_failure_ends_file_witness :
    (DataLake.index_directory natCodec fsCorrupt "d" ["g"]
        (DataLake.init natCodec fsCorrupt "db")).m_index 2
      = (DataLake.init natCodec fsCorrupt "db").m_index 2
        ++ offsFor natCodec 2 (expectedRecs natCodec 0 [(1, 10)]) :=
  c7_amended_decode_failure_ends_file natCodec natCodec_law natCodec_encode_ne_nil
    [(1, 10)] [9, 9, 9, 7, 2, 20] rfl fsCorrupt "g" (by decide) (by decide)
    "d" (DataLake.init natCodec fsCorrupt "db") 2

/-- C8: a missing key is never an error.  For every key whose index
entry is absent, lookup returns the empty sequence and `getOffset`
returns the absent sentinel -1; both operations are total functions of
the state, so neither can fail. -/
theorem c8_missing_key_not_error (co : Codec K V) (fs : Fs)
    (s : DataLake K V) (k : K) (h : s.m_index k = []) :
    DataLake.lookup co fs s k = [] ∧ DataLake.getOffset s k = -1 := by
  unfold DataLake.lookup DataLake.getOffset
  rw [h]
  exact ⟨rfl, rfl⟩

/-- C8 witness at a concrete input: key 5 on a freshly constructed
lake. -/
theorem c8_missing_key_not_error_witness :
    DataLake.lookup natCodec fsEmpty (DataLake.init natCodec fsEmpty "db") 5 = []
    ∧ DataLake.getOffset (DataLake.init natCodec fsEmpty "db") 5 = -1 :=
  c8_missing_key_not_error natCodec fsEmpty (DataLake.init natCodec fsEmpty "db") 5 rfl

/-- C9: every lookup resolves its offsets against the single current
file `m_filename`, never against the file a record was written to: two
filesystems that agree on the contents of `m_filename` answer every
lookup identically however much the other files differ, and after
`index_directory` the current file is the last enumerated file (the
previous one when the listing is empty). -/
theorem c9_lookup_reads_single_current_file (co : Codec K V) [DecidableEq K]
    (fs fs2 : Fs) (s : DataLake K V) (k : K) (d : String) (listing : List String)
    (h : fs2 s.m_filename = fs s.m_filename) :
    DataLake.lookup co fs2 s k = DataLake.lookup co fs s k
    ∧ (DataLake.index_directory co fs d listing s).m_filename
        = listing.getLast?.getD s.m_filename := by
  constructor
  · unfold DataLake.lookup
    have hr : readAt co fs2 s.m_filename = readAt co fs s.m_filename := by
      funext off
      exact readAt_congr co fs fs2 s.m_filename h off
    rw [hr]
  · exact index_directory_m_filename co fs d listing s

/-- C9 witness at a concrete input: after indexing the two-file
directory the current file is `f2`, and emptying `f1`, the file the
record of key 1 was written to, does not change the lookup of key 1. -/
theorem c9_lookup_reads_single_current_file_witness :
    DataLake.lookup natCodec fsPairAlt lakePair 1
      = DataLake.lookup natCodec fsPair lakePair 1
    ∧ (DataLake.index_directory natCodec fsPair "d" ["f1", "f2"] lakePair).m_filename
        = (["f1", "f2"] : List String).getLast?.getD lakePair.m_filename :=
  c9_lookup_reads_single_current_file natCodec fsPair fsPairAlt lakePair 1
    "d" ["f1", "f2"] (by decide)

/-- C10: the constructor eagerly decodes the whole file at the given
path into the member `map`, keeping the first decoded value per key,
leaves the location index empty, and `map` is consulted by neither
lookup nor `getOffset`; consequently every lookup straight after
construction returns the empty sequence. -/
theorem c10_ctor_fills_map_not_index (co : Codec K V) [DecidableEq K]
    (hlaw : ∀ (v : V) (rest : List Nat),
      co.decode (co.encode v ++ rest) = some (v, (co.encode v).length))
    (hpos : ∀ v : V, co.encode v ≠ [])
    (hnil : co.decode [] = none)
    (fs : Fs) (p : String) (recs : List V) (hp : ¬ p = "")
    (hfs : fs p = some (encodeAll co recs))
    (k : K) (s2 : DataLake K V) (m2 : List (K × V)) :
    (DataLake.init co fs p).map = firstPerKey co recs
    ∧ (DataLake.init co fs p).m_index k = []
    ∧ DataLake.lookup co fs (DataLake.init co fs p) k = []
    ∧ DataLake.getOffset (DataLake.init co fs p) k = -1
    ∧ DataLake.lookup co fs { s2 with map := m2 } k = DataLake.lookup co fs s2 k
    ∧ DataLake.getOffset { s2 with map := m2 } k = DataLake.getOffset s2 k := by
  refine ⟨?_, rfl, rfl, rfl, rfl, rfl⟩
  have hO : openRead fs p = some (encodeAll co recs) := by
    unfold openRead
    rw [if_neg hp, hfs]
  have hscan : scanFile co (encodeAll co recs) = expectedRecs co 0 recs := by
    have h2 := scanFile_encodeAll co hlaw hpos recs [] hnil
    rw [List.append_nil] at h2
    exact h2
  unfold DataLake.init
  simp only [hO]
  rw [hscan]
  unfold firstPerKey
  conv_rhs => rw [← expectedRecs_map_fst co 0 recs]
  rw [List.foldl_map]

/-- C10 witness at a concrete input: constructing over the two-record
file fills `map` with both records, leaves the index empty, and editing
the `map` member of an indexed lake changes no lookup. -/
theorem c10_ctor_fills_map_not_index_witness :
    (DataLake.init natCodec fsTwo "f1").map = firstPerKey natCodec [(1, 10), (2, 20)]
    ∧ (DataLake.init natCodec fsTwo "f1").m_index 5 = []
    ∧ DataLake.lookup natCodec fsTwo (DataLake.init natCodec fsTwo "f1") 5 = []
    ∧ DataLake.getOffset (DataLake.init natCodec fsTwo "f1") 5 = -1
    ∧ DataLake.lookup natCodec fsTwo { lakeOne with map := [(9, (9, 9))] } 5
        = DataLake.lookup natCodec fsTwo lakeOne 5
    ∧ DataLake.getOffset { lakeOne with map := [(9, (9, 9))] } 5
        = DataLake.getOffset lakeOne 5 :=
  c10_ctor_fills_map_not_index natCodec natCodec_law natCodec_encode_ne_nil rfl
    fsTwo "f1" [(1, 10), (2, 20)] (by decide) (by decide) 5 lakeOne [(9, (9, 9))]
